import Mathlib

/-!
Shallow embedding of the two circos renderers of this repository:
src/plot_circos_cancer_drivers.py (function plot_circos) and
src/plot_circos_hla.py (function plot_circos_hla).

Tables are modelled column-wise: a table is an association list from column
names to typed columns (string valued or rational valued).  Numeric values
are modelled as rationals with exact arithmetic.  Fallible Python steps
(column access, list indexing, numpy arange with zero step, max or min of an
empty column) are modelled with Except.  The renderers become step functions
that walk the source code in order and either fail with the first raised
error or succeed; the single savefig call at the end of each source file is
the only write, so a run yields the written file list only on success.
-/

namespace PlotCircos

/-- Typed column of a data frame: either a string column or a numeric column. -/
inductive Col where
  | strCol (vals : List String)
  | numCol (vals : List ℚ)
deriving DecidableEq

/-- Length of a column, used for the rectangular table invariant. -/
def Col.size : Col → Nat
  | .strCol vs => vs.length
  | .numCol vs => vs.length

/-- Table read by pd.read_csv: header names paired with column contents. -/
structure Table where
  cols : List (String × Col)
deriving DecidableEq

/-- Column names of a table, as in df.columns. -/
def Table.colNames (t : Table) : List String := t.cols.map Prod.fst

/-- Rectangularity of a table: all columns have the same number of rows. -/
def Table.WF (t : Table) : Prop :=
  ∀ c ∈ t.cols, ∀ d ∈ t.cols, (Prod.snd c).size = (Prod.snd d).size

instance : DecidablePred Table.WF := fun t =>
  inferInstanceAs (Decidable (∀ c ∈ t.cols, ∀ d ∈ t.cols, _ = _))

/-- Errors raised by the Python code paths that the claims mention. -/
inductive PyError where
  /-- Raised by df[name] when the column is absent; carries the column name. -/
  | keyError (col : String)
  /-- Raised by indexing a Python list out of range, as in pal_list[col_pal]. -/
  | indexError
  /-- Raised by np.arange when the step argument is zero. -/
  | zeroDivisionError
  /-- Raised by np.max or np.min over an empty column. -/
  | valueError
  /-- Raised when a column of the wrong kind feeds a typed operation. -/
  | typeError
deriving DecidableEq

/-- Lookup of a column by name in the association list of a table. -/
def colLookup : List (String × Col) → String → Option Col
  | [], _ => none
  | (k, c) :: rest, name => if k = name then some c else colLookup rest name

/-- Access df[name]: KeyError when the column is absent, as in pandas. -/
def getCol (t : Table) (name : String) : Except PyError Col :=
  match colLookup t.cols name with
  | some c => .ok c
  | none => .error (.keyError name)

/-- Access df[name] expecting a string column. -/
def getStrCol (t : Table) (name : String) : Except PyError (List String) :=
  match getCol t name with
  | .ok (.strCol vs) => .ok vs
  | .ok (.numCol _) => .error .typeError
  | .error e => .error e

/-- Access df[name] expecting a numeric column. -/
def getNumCol (t : Table) (name : String) : Except PyError (List ℚ) :=
  match getCol t name with
  | .ok (.numCol vs) => .ok vs
  | .ok (.strCol _) => .error .typeError
  | .error e => .error e

/-- Distinct values of a list in first-seen order, the grouping key order. -/
def firstSeen : List String → List String
  | [] => []
  | x :: xs => x :: (firstSeen xs).filter (fun y => y != x)

/-- Pair each first-seen distinct value with its number of occurrences. -/
def firstSeenCounts (l : List String) : List (String × Nat) :=
  (firstSeen l).map (fun v => (v, l.count v))

/-- Ordering used by pandas value_counts: larger counts first. -/
def countGe (p q : String × Nat) : Prop := q.2 ≤ p.2

instance : DecidableRel countGe := fun p q =>
  inferInstanceAs (Decidable (q.2 ≤ p.2))

instance : IsTotal (String × Nat) countGe := ⟨fun a b => Nat.le_total b.2 a.2⟩

instance : IsTrans (String × Nat) countGe := ⟨fun _ _ _ hab hbc => le_trans hbc hab⟩

/-- Model of df[col].value_counts().to_dict() at line 41 of both source files:
occurrence counts of the distinct category values, listed in descending count
order.  Both renderers hand this list to the Circos layout engine, whose dict
insertion order fixes the angular order of the sectors. -/
def value_counts (col : List String) : List (String × Nat) :=
  List.insertionSort countGe (firstSeenCounts col)

/-- Python list indexing with negative wrap-around and IndexError out of range. -/
def pyGet {α : Type} (l : List α) (i : Int) : Option α :=
  if 0 ≤ i then l.get? i.toNat
  else if -(l.length : Int) ≤ i then l.get? (i + l.length).toNat
  else none

/-- Conversion int(v) of Python applied to a rational: truncation toward zero. -/
def pyInt (q : ℚ) : ℤ := if 0 ≤ q then ⌊q⌋ else ⌈q⌉

/-- Model of np.arange(start, stop, step): ZeroDivisionError on a zero step,
otherwise the list start + i * step for i below ceil((stop - start) / step). -/
def np_arange (start stop step : ℚ) : Except PyError (List ℚ) :=
  if step = 0 then .error .zeroDivisionError
  else .ok ((List.range (⌈(stop - start) / step⌉).toNat).map
    (fun i => start + (i : ℚ) * step))

/-- Model of np.max over a column: ValueError on an empty column. -/
def npMax : List ℚ → Except PyError ℚ
  | [] => .error .valueError
  | x :: xs => .ok (xs.foldl max x)

/-- Model of np.min over a column: ValueError on an empty column. -/
def npMin : List ℚ → Except PyError ℚ
  | [] => .error .valueError
  | x :: xs => .ok (xs.foldl min x)

/-- Line 85 of the driver renderer: np.ceil(max_value / 10) * 10. -/
def rounded_max_value (m : ℚ) : ℚ := ((⌈m / 10⌉ : ℤ) : ℚ) * 10

/-- Line 115 of the HLA renderer: np.floor(min_value / 10) * 10. -/
def rounded_min_value (m : ℚ) : ℚ := ((⌊m / 10⌋ : ℤ) : ℚ) * 10

/-- Line 167 of the driver renderer: the fixed sequential palette rotation. -/
def pal_list : List String :=
  ["Reds", "Greens", "YlOrBr", "Blues", "Reds", "Purples", "Greys"]

/-- Values of a second column restricted to the rows whose category column
equals the sector name; models df[df[track_1_data] == sector.name][other]. -/
def filterByCat {α : Type} (cat : List String) (vals : List α)
    (name : String) : List α :=
  ((cat.zip vals).filter (fun p => p.1 == name)).map Prod.snd

/-- Options of plot_circos in src/plot_circos_cancer_drivers.py, lines 6 to 14,
with the default value of every keyword argument as the source declares it. -/
structure DriverOptions where
  palette : String := "Set3"
  track_1_data : String := "Cancer_type"
  track_2_data : String := "Tumors"
  bar_pal_start : Int := 2
  hmap_pal_start : Int := -1
  plot_title : String := ""
  track_2_label : String := ""
  file_name : String := "plot.pdf"
deriving DecidableEq

/-- Options of plot_circos_hla in src/plot_circos_hla.py, lines 7 to 17, with
the default value of every keyword argument as the source declares it: the
column name options all default to the empty string. -/
structure HlaOptions where
  palette : String := "Set3"
  track_1_data : String := ""
  track_2_data : String := ""
  track_3_data : String := ""
  track_3_labels : String := ""
  pal_start : Int := 0
  plot_title : String := ""
  file_name : String := "plot.pdf"
deriving DecidableEq

/-- Ring B body of the driver renderer, lines 91 to 145: per sector the code
filters the frame, reads the query column for the x tick labels, builds the
y tick labels with np.arange(0, vmax2 + 1, vmax2 / 2) and draws the bars.
The fallible steps are the query column access and the arange call. -/
def driver_ringB_step (t : Table) (cat : List String) (freq : List ℚ)
    (rmax : ℚ) (s : String × Nat) : Except PyError Unit :=
  match getStrCol t "query" with
  | .error e => .error e
  | .ok qcol =>
    let _xlabels := filterByCat cat qcol s.1
    let _y := filterByCat cat freq s.1
    match np_arange 0 (rmax + 1) (rmax / 2) with
    | .error e => .error e
    | .ok ticks =>
      let _ylabels := ticks.map (fun v => toString (pyInt v))
      .ok ()

/-- Ring B loop of the driver renderer over the sectors in layout order. -/
def driver_ringB_loop (t : Table) (cat : List String) (freq : List ℚ)
    (rmax : ℚ) : List (String × Nat) → Except PyError Unit
  | [] => .ok ()
  | s :: rest =>
    match driver_ringB_step t cat freq rmax s with
    | .error e => .error e
    | .ok _ => driver_ringB_loop t cat freq rmax rest

/-- Ring C body of the driver renderer, lines 172 to 192: per sector the code
increments the palette counter, reads the driver column of the filtered frame
and indexes pal_list with the counter to pick the heatmap color scale.  The
counter argument is the already incremented col_pal of the iteration. -/
def driver_ringC_step (t : Table) (cat : List String) (colPal : Int)
    (s : String × Nat) : Except PyError Unit :=
  match getNumCol t "driver" with
  | .error e => .error e
  | .ok dcol =>
    let _data := filterByCat cat dcol s.1
    match pyGet pal_list colPal with
    | none => .error .indexError
    | some _cmap => .ok ()

/-- Ring C loop of the driver renderer: col_pal starts at hmap_pal_start and
is incremented once per sector before its use, lines 170 to 174. -/
def driver_ringC_loop (t : Table) (cat : List String) :
    Int → List (String × Nat) → Except PyError Unit
  | _, [] => .ok ()
  | colPal, s :: rest =>
    match driver_ringC_step t cat (colPal + 1) s with
    | .error e => .error e
    | .ok _ => driver_ringC_loop t cat (colPal + 1) rest

/-- Full effectful walk of plot_circos in source order: read the category
column (line 41), build the sectors, ring A (no fallible step), read the
frequency column and its maximum (line 84), round it (line 85), ring B loop,
ring C loop.  The savefig call (line 249) happens after every step here. -/
def driver_steps (t : Table) (o : DriverOptions) : Except PyError Unit :=
  match getStrCol t o.track_1_data with
  | .error e => .error e
  | .ok cat =>
    let sectors := value_counts cat
    match getNumCol t o.track_2_data with
    | .error e => .error e
    | .ok freq =>
      match npMax freq with
      | .error e => .error e
      | .ok maxv =>
        let rmax := rounded_max_value maxv
        match driver_ringB_loop t cat freq rmax sectors with
        | .error e => .error e
        | .ok _ =>
          match driver_ringC_loop t cat o.hmap_pal_start sectors with
          | .error e => .error e
          | .ok _ => .ok ()

/-- Result of a call to plot_circos: the error raised, or on success the one
file name handed to fig.savefig at line 249. -/
def driver_run (t : Table) (o : DriverOptions) : Except PyError (List String) :=
  match driver_steps t o with
  | .error e => .error e
  | .ok _ => .ok [o.file_name]

/-- Files written by a call to plot_circos: savefig is the last statement of
the function, so an error anywhere leaves nothing written. -/
def driver_writes (t : Table) (o : DriverOptions) : List String :=
  match driver_steps t o with
  | .error _ => []
  | .ok _ => [o.file_name]

/-- Rectangle and text loop of the HLA ring B body, lines 88 to 100: for every
i in range(int(track1.size)) the code draws a rectangle and indexes the
filtered length list at i for the text. -/
def hla_rect_loop (lens : List ℚ) : List Nat → Except PyError Unit
  | [] => .ok ()
  | i :: rest =>
    match pyGet lens (i : Int) with
    | none => .error .indexError
    | some _v => hla_rect_loop lens rest

/-- Ring B body of the HLA renderer, lines 83 to 100: per sector the code
filters the frame, reads the length column and runs the rectangle loop over
the sector size. -/
def hla_ringB_step (t : Table) (cat : List String) (o : HlaOptions)
    (s : String × Nat) : Except PyError Unit :=
  match getNumCol t o.track_2_data with
  | .error e => .error e
  | .ok lcol =>
    let lens := filterByCat cat lcol s.1
    hla_rect_loop lens (List.range s.2)

/-- Ring B loop of the HLA renderer over the sectors in layout order. -/
def hla_ringB_loop (t : Table) (cat : List String) (o : HlaOptions) :
    List (String × Nat) → Except PyError Unit
  | [] => .ok ()
  | s :: rest =>
    match hla_ringB_step t cat o s with
    | .error e => .error e
    | .ok _ => hla_ringB_loop t cat o rest

/-- Ring C body of the HLA renderer, lines 120 to 165: per sector the code
reads the label column for the x ticks and builds the y tick labels with
np.arange(0, vmin - 1, vmin / 2) before drawing the bars. -/
def hla_ringC_step (t : Table) (cat : List String) (o : HlaOptions)
    (vmin : ℚ) (s : String × Nat) : Except PyError Unit :=
  match getStrCol t o.track_3_labels with
  | .error e => .error e
  | .ok labcol =>
    let _xlabels := filterByCat cat labcol s.1
    match np_arange 0 (vmin - 1) (vmin / 2) with
    | .error e => .error e
    | .ok ticks =>
      let _ylabels := ticks.map (fun v => toString (pyInt v))
      .ok ()

/-- Ring C loop of the HLA renderer over the sectors in layout order. -/
def hla_ringC_loop (t : Table) (cat : List String) (o : HlaOptions)
    (vmin : ℚ) : List (String × Nat) → Except PyError Unit
  | [] => .ok ()
  | s :: rest =>
    match hla_ringC_step t cat o vmin s with
    | .error e => .error e
    | .ok _ => hla_ringC_loop t cat o vmin rest

/-- Full effectful walk of plot_circos_hla in source order: category column
(line 41), sectors, ring A (no fallible step), ring B loop (lines 83 to 100),
minimum of the binding column and its rounding (lines 114 to 116), ring C
loop (lines 120 to 165).  savefig (line 231) follows every step here. -/
def hla_steps (t : Table) (o : HlaOptions) : Except PyError Unit :=
  match getStrCol t o.track_1_data with
  | .error e => .error e
  | .ok cat =>
    let sectors := value_counts cat
    match hla_ringB_loop t cat o sectors with
    | .error e => .error e
    | .ok _ =>
      match getNumCol t o.track_3_data with
      | .error e => .error e
      | .ok bcol =>
        match npMin bcol with
        | .error e => .error e
        | .ok minv =>
          let vmin := rounded_min_value minv
          match hla_ringC_loop t cat o vmin sectors with
          | .error e => .error e
          | .ok _ => .ok ()

/-- Result of a call to plot_circos_hla: the error raised, or on success the
one file name handed to fig.savefig at line 231. -/
def hla_run (t : Table) (o : HlaOptions) : Except PyError (List String) :=
  match hla_steps t o with
  | .error e => .error e
  | .ok _ => .ok [o.file_name]

/-- Files written by a call to plot_circos_hla. -/
def hla_writes (t : Table) (o : HlaOptions) : List String :=
  match hla_steps t o with
  | .error _ => []
  | .ok _ => [o.file_name]

/-- Tick positions of the HLA ring C y axis, line 144: [vmax, vmin/2, vmin]
with vmax fixed at 0. -/
def hla_ytick_positions (vmin : ℚ) : List ℚ := [0, vmin / 2, vmin]

/-- Tick labels of the HLA ring C y axis, lines 145 to 147: str(int(value))
for value in np.arange(0, vmin - 1, vmin / 2). -/
def hla_ytick_labels (vmin : ℚ) : Except PyError (List String) :=
  match np_arange 0 (vmin - 1) (vmin / 2) with
  | .error e => .error e
  | .ok vs => .ok (vs.map (fun v => toString (pyInt v)))

/-- Color counter sequence of the driver ring A loop, lines 54 to 58: col_1
starts at bar_pal_start and each sector first increments it, then uses it. -/
def ringA_cursor_list (c : Int) : List (String × Nat) → List Int
  | [] => []
  | _ :: rest => (c + 1) :: ringA_cursor_list (c + 1) rest

/-- Color counter sequence of the driver ring B loop, lines 89 to 93: col_2
restarts at bar_pal_start and each sector first increments it, then uses it. -/
def ringB_cursor_list (c : Int) : List (String × Nat) → List Int
  | [] => []
  | _ :: rest => (c + 1) :: ringB_cursor_list (c + 1) rest

/-- Value of a Python keyword argument default in the renderer signatures. -/
inductive PyDefault where
  | strDefault (s : String)
  | intDefault (i : Int)
deriving DecidableEq

/-- Keyword arguments of plot_circos with their defaults, source lines 6 to
14; none is mandatory. -/
def driver_option_defaults : List (String × Option PyDefault) :=
  [("palette", some (.strDefault "Set3")),
   ("track_1_data", some (.strDefault "Cancer_type")),
   ("track_2_data", some (.strDefault "Tumors")),
   ("bar_pal_start", some (.intDefault 2)),
   ("hmap_pal_start", some (.intDefault (-1))),
   ("plot_title", some (.strDefault "")),
   ("track_2_label", some (.strDefault "")),
   ("file_name", some (.strDefault "plot.pdf"))]

/-- Keyword arguments of plot_circos_hla with their defaults, source lines 7
to 17; none is mandatory, the column names default to the empty string. -/
def hla_option_defaults : List (String × Option PyDefault) :=
  [("palette", some (.strDefault "Set3")),
   ("track_1_data", some (.strDefault "")),
   ("track_2_data", some (.strDefault "")),
   ("track_3_data", some (.strDefault "")),
   ("track_3_labels", some (.strDefault "")),
   ("pal_start", some (.intDefault 0)),
   ("plot_title", some (.strDefault "")),
   ("file_name", some (.strDefault "plot.pdf"))]

/-- Table exhibiting the palette overflow of the driver heatmap ring: one
category, all required columns present, frequency 5 and driver flag 1. -/
def c2_table : Table :=
  ⟨[("Cancer_type", .strCol ["c1"]),
    ("Tumors", .numCol [5]),
    ("query", .strCol ["q1"]),
    ("driver", .numCol [1])]⟩

/-- Driver options with heatmap palette start 6: the first sector already
pushes the palette counter to 7, past the end of the 7 entry pal_list. -/
def c2_opts : DriverOptions := { hmap_pal_start := 6 }

/-- Driver table without the driver column, whose frequency maximum -5
rounds to an axis bound of 0: the ring B tick generation fails with the
zero step error before the driver column is ever accessed. -/
def c7_table : Table :=
  ⟨[("Cancer_type", .strCol ["a"]),
    ("Tumors", .numCol [-5]),
    ("query", .strCol ["q"])]⟩

/-- Driver table whose frequency maximum -5 rounds to an axis bound of 0. -/
def c10_driver_table : Table :=
  ⟨[("Cancer_type", .strCol ["a"]),
    ("Tumors", .numCol [-5]),
    ("query", .strCol ["q"]),
    ("driver", .numCol [1])]⟩

/-- HLA table whose binding minimum 5 rounds down to an axis floor of 0. -/
def c10_hla_table : Table :=
  ⟨[("hla", .strCol ["h"]),
    ("len", .numCol [9]),
    ("bind", .numCol [5]),
    ("pep", .strCol ["p"])]⟩

/-- HLA options naming the four data columns of c10_hla_table. -/
def c10_hla_opts : HlaOptions :=
  { track_1_data := "hla", track_2_data := "len",
    track_3_data := "bind", track_3_labels := "pep" }

/-! Lemmas about the grouping step shared by both renderers. -/

theorem mem_firstSeen {a : String} : ∀ {l : List String}, a ∈ firstSeen l ↔ a ∈ l
  | [] => by simp [firstSeen]
  | x :: xs => by
    simp only [firstSeen, List.mem_cons, List.mem_filter, bne_iff_ne]
    constructor
    · rintro (rfl | ⟨h, _⟩)
      · exact Or.inl rfl
      · exact Or.inr (mem_firstSeen.mp h)
    · rintro (rfl | h)
      · exact Or.inl rfl
      · by_cases hax : a = x
        · exact Or.inl hax
        · exact Or.inr ⟨mem_firstSeen.mpr h, hax⟩

theorem nodup_firstSeen : ∀ (l : List String), (firstSeen l).Nodup
  | [] => by simp [firstSeen]
  | x :: xs => by
    simp only [firstSeen]
    refine List.nodup_cons.mpr ⟨?_, List.Nodup.filter _ (nodup_firstSeen xs)⟩
    intro hmem
    have := (List.mem_filter.mp hmem).2
    simp at this

theorem firstSeen_perm_dedup (l : List String) : (firstSeen l).Perm l.dedup := by
  refine (List.perm_ext_iff_of_nodup (nodup_firstSeen l) l.nodup_dedup).mpr ?_
  intro a
  rw [mem_firstSeen, List.mem_dedup]

theorem firstSeen_ne_nil {l : List String} (h : l ≠ []) : firstSeen l ≠ [] := by
  cases l with
  | nil => exact absurd rfl h
  | cons x xs => simp [firstSeen]

/-- Sum of the occurrence counts over the distinct values is the row count. -/
theorem sum_counts_firstSeen (l : List String) :
    ((firstSeen l).map (fun v => l.count v)).sum = l.length := by
  have hperm := (firstSeen_perm_dedup l).map (fun v => l.count v)
  rw [hperm.sum_eq]
  exact List.sum_map_count_dedup_eq_length l

theorem map_fst_firstSeenCounts (l : List String) :
    (firstSeenCounts l).map Prod.fst = firstSeen l := by
  simp [firstSeenCounts, List.map_map, Function.comp_def]

theorem value_counts_perm (col : List String) :
    (value_counts col).Perm (firstSeenCounts col) :=
  List.perm_insertionSort countGe (firstSeenCounts col)

theorem mem_value_counts {p : String × Nat} {col : List String} :
    p ∈ value_counts col ↔ p ∈ firstSeenCounts col :=
  (value_counts_perm col).mem_iff

theorem mem_firstSeenCounts {p : String × Nat} {col : List String} :
    p ∈ firstSeenCounts col ↔ p.1 ∈ firstSeen col ∧ p.2 = col.count p.1 := by
  constructor
  · intro h
    obtain ⟨v, hv, rfl⟩ := List.mem_map.mp h
    exact ⟨hv, rfl⟩
  · rintro ⟨h1, h2⟩
    refine List.mem_map.mpr ⟨p.1, h1, ?_⟩
    exact Prod.ext rfl h2.symm

theorem value_counts_ne_nil {col : List String} (h : col ≠ []) :
    value_counts col ≠ [] := by
  intro hnil
  have hlen := (value_counts_perm col).length_eq
  rw [hnil] at hlen
  have : (firstSeenCounts col).length = 0 := hlen.symm
  rw [firstSeenCounts, List.length_map] at this
  exact firstSeen_ne_nil h (List.length_eq_zero.mp this)

/-- C1 counterexample: on the table whose category column reads a, b, b the
sectors handed to the layout engine are ordered b then a (descending count
order of value_counts), not the first-seen order a then b, so the angular
positions are not assigned in first-seen order. -/
theorem C1_counterexample :
    (value_counts ["a", "b", "b"]).map Prod.fst = ["b", "a"]
    ∧ firstSeen ["a", "b", "b"] = ["a", "b"]
    ∧ (value_counts ["a", "b", "b"]).map Prod.fst
        ≠ firstSeen ["a", "b", "b"] := by
  decide

/-- C1 amended: in both renderers the sectors handed to the layout engine are
exactly the distinct values of the category column with their row counts, but
their angular order is the value_counts order, descending by row count, not
the first-seen order: the name list is a permutation of the first-seen
distinct values, the list is sorted by descending count, and each sector
carries the occurrence count of its category value. -/
theorem C1_sector_order (col : List String) :
    ((value_counts col).map Prod.fst).Perm (firstSeen col)
    ∧ List.Pairwise countGe (value_counts col)
    ∧ (value_counts col).map Prod.snd
        = (value_counts col).map (fun p => col.count p.1) := by
  refine ⟨?_, ?_, ?_⟩
  · have h := (value_counts_perm col).map Prod.fst
    rwa [map_fst_firstSeenCounts] at h
  · exact List.sorted_insertionSort countGe (firstSeenCounts col)
  · apply List.map_congr_left
    intro p hp
    exact (mem_firstSeenCounts.mp (mem_value_counts.mp hp)).2

/-- C5 confirmed: for every input table, in both renderers, the number of
sectors equals the number of distinct values of the category column, the
sector sizes sum to the row count of the table, and every sector has a
positive row count. -/
theorem C5_sector_invariants (col : List String) :
    (value_counts col).length = col.toFinset.card
    ∧ ((value_counts col).map Prod.snd).sum = col.length
    ∧ (value_counts col).all (fun p => decide (0 < p.2)) = true := by
  refine ⟨?_, ?_, ?_⟩
  · have h1 : (value_counts col).length = (firstSeen col).length := by
      rw [(value_counts_perm col).length_eq, firstSeenCounts, List.length_map]
    have h2 : (firstSeen col).toFinset = col.toFinset := by
      ext a
      simp [List.mem_toFinset, mem_firstSeen]
    rw [h1, ← List.toFinset_card_of_nodup (nodup_firstSeen col), h2]
  · have hperm := (value_counts_perm col).map Prod.snd
    rw [hperm.sum_eq]
    have : (firstSeenCounts col).map Prod.snd
        = (firstSeen col).map (fun v => col.count v) := by
      simp [firstSeenCounts, List.map_map, Function.comp_def]
    rw [this, sum_counts_firstSeen]
  · rw [List.all_eq_true]
    intro p hp
    obtain ⟨h1, h2⟩ := mem_firstSeenCounts.mp (mem_value_counts.mp hp)
    rw [decide_eq_true_iff, h2]
    exact List.count_pos_iff.mpr (mem_firstSeen.mp h1)

/-! Lemmas about the axis bound computations. -/

theorem foldl_max_init_le (a : ℚ) (xs : List ℚ) : a ≤ xs.foldl max a := by
  induction xs generalizing a with
  | nil => simp
  | cons x xs ih => exact le_trans (le_max_left a x) (ih (max a x))

theorem le_foldl_max_of_mem {x : ℚ} {xs : List ℚ} (hx : x ∈ xs) (a : ℚ) :
    x ≤ xs.foldl max a := by
  induction xs generalizing a with
  | nil => cases hx
  | cons y ys ih =>
    rcases List.mem_cons.mp hx with rfl | h
    · exact le_trans (le_max_right a x) (foldl_max_init_le _ _)
    · exact ih h (max a y)

theorem npMax_is_ub {l : List ℚ} {m : ℚ} (h : npMax l = .ok m) :
    ∀ x ∈ l, x ≤ m := by
  cases l with
  | nil => simp [npMax] at h
  | cons y ys =>
    simp only [npMax, Except.ok.injEq] at h
    intro x hx
    rcases List.mem_cons.mp hx with rfl | hmem
    · exact h ▸ foldl_max_init_le x ys
    · exact h ▸ le_foldl_max_of_mem hmem y

theorem foldl_min_le_init (a : ℚ) (xs : List ℚ) : xs.foldl min a ≤ a := by
  induction xs generalizing a with
  | nil => simp
  | cons x xs ih => exact le_trans (ih (min a x)) (min_le_left a x)

theorem foldl_min_le_of_mem {x : ℚ} {xs : List ℚ} (hx : x ∈ xs) (a : ℚ) :
    xs.foldl min a ≤ x := by
  induction xs generalizing a with
  | nil => cases hx
  | cons y ys ih =>
    rcases List.mem_cons.mp hx with rfl | h
    · exact le_trans (foldl_min_le_init (min a x) ys) (min_le_right a x)
    · exact ih h (min a y)

theorem npMin_is_lb {l : List ℚ} {m : ℚ} (h : npMin l = .ok m) :
    ∀ x ∈ l, m ≤ x := by
  cases l with
  | nil => simp [npMin] at h
  | cons y ys =>
    simp only [npMin, Except.ok.injEq] at h
    intro x hx
    rcases List.mem_cons.mp hx with rfl | hmem
    · exact h ▸ foldl_min_le_init x ys
    · exact h ▸ foldl_min_le_of_mem hmem y

/-- C3 counterexample: a frequency column whose maximum is -15 yields
rounded_max_value = -10, a negative number, refuting the claim that the
rounded maximum is non-negative for every non-empty numeric column. -/
theorem C3_counterexample :
    npMax [-15] = .ok (-15)
    ∧ rounded_max_value (-15) = -10
    ∧ rounded_max_value (-15) < 0 := by
  have h : (⌈((-15 : ℚ)) / 10⌉ : ℤ) = -1 := by
    rw [Int.ceil_eq_iff]
    constructor <;> norm_num
  refine ⟨by simp [npMax], ?_, ?_⟩ <;>
    · rw [rounded_max_value, h]
      norm_num

/-- C3 amended: for every non-empty numeric frequency column with maximum m,
rounded_max_value m is a multiple of 10 that bounds the whole column from
above; it equals 0 only when all frequency values are at most 0, and it is
non-negative whenever the maximum exceeds -10 (in particular whenever any
frequency value is non-negative) — but not for every column, see the
counterexample. -/
theorem C3_rounded_max (l : List ℚ) (m : ℚ) (h : npMax l = .ok m) :
    (∃ k : ℤ, rounded_max_value m = (k : ℚ) * 10)
    ∧ m ≤ rounded_max_value m
    ∧ (∀ x ∈ l, x ≤ m)
    ∧ (rounded_max_value m = 0 → ∀ x ∈ l, x ≤ 0)
    ∧ (-10 < m → 0 ≤ rounded_max_value m) := by
  have hub := npMax_is_ub h
  refine ⟨⟨⌈m / 10⌉, rfl⟩, ?_, hub, ?_, ?_⟩
  · have hc := Int.le_ceil (m / 10)
    rw [rounded_max_value]
    exact (div_le_iff₀ (by norm_num : (0:ℚ) < 10)).mp hc
  · intro h0 x hx
    have hcast : ((⌈m / 10⌉ : ℤ) : ℚ) = 0 := by
      rw [rounded_max_value] at h0
      have h10 : ((10 : ℚ)) ≠ 0 := by norm_num
      exact (mul_eq_zero.mp h0).resolve_right h10
    have hz : ⌈m / 10⌉ = 0 := by exact_mod_cast hcast
    have hle : m / 10 ≤ 0 := by
      have := Int.ceil_le.mp (le_of_eq hz)
      simpa using this
    have hm : m ≤ 0 := by
      have := mul_le_mul_of_nonneg_right hle (by norm_num : (0:ℚ) ≤ 10)
      rwa [div_mul_cancel₀ m (by norm_num : (10:ℚ) ≠ 0), zero_mul] at this
    exact le_trans (hub x hx) hm
  · intro hgt
    have hdiv : (-1 : ℚ) < m / 10 := by
      rw [lt_div_iff₀ (by norm_num : (0:ℚ) < 10)]
      linarith
    have hceil : (-1 : ℤ) < ⌈m / 10⌉ := Int.lt_ceil.mpr (by exact_mod_cast hdiv)
    have hnn : (0 : ℤ) ≤ ⌈m / 10⌉ := by omega
    rw [rounded_max_value]
    exact mul_nonneg (by exact_mod_cast hnn) (by norm_num)

/-- C3 witness: the spec example column with values 5, 12, 30, 1, 9, 4 has
maximum 30 and satisfies the amended statement. -/
theorem C3_witness :
    npMax [5, 12, 30, 1, 9, 4] = .ok 30
    ∧ ((∃ k : ℤ, rounded_max_value 30 = (k : ℚ) * 10)
      ∧ (30 : ℚ) ≤ rounded_max_value 30
      ∧ (∀ x ∈ ([5, 12, 30, 1, 9, 4] : List ℚ), x ≤ 30)
      ∧ (rounded_max_value 30 = 0 → ∀ x ∈ ([5, 12, 30, 1, 9, 4] : List ℚ), x ≤ 0)
      ∧ ((-10 : ℚ) < 30 → 0 ≤ rounded_max_value 30)) := by
  have heval : npMax [5, 12, 30, 1, 9, 4] = .ok 30 := by
    simp [npMax, List.foldl, max_def]
    norm_num
  exact ⟨heval, C3_rounded_max [5, 12, 30, 1, 9, 4] 30 heval⟩

/-- C4 counterexample: a binding column whose minimum is 15 yields
rounded_min_value = 10, a positive number, refuting the claim that the ring C
axis floor is non-positive for every non-empty numeric column. -/
theorem C4_counterexample :
    npMin [15] = .ok 15
    ∧ rounded_min_value 15 = 10
    ∧ 0 < rounded_min_value 15 := by
  have h : (⌊((15 : ℚ)) / 10⌋ : ℤ) = 1 := by
    rw [Int.floor_eq_iff]
    constructor <;> norm_num
  refine ⟨by simp [npMin], ?_, ?_⟩ <;>
    · rw [rounded_min_value, h]
      norm_num

/-- C4 amended: for every non-empty numeric binding column with minimum m,
rounded_min_value m is a multiple of 10 that bounds the whole column from
below, and it is non-positive whenever the minimum is below 10 (in
particular whenever any binding value is non-positive) — but not for every
column, see the counterexample. -/
theorem C4_rounded_min (l : List ℚ) (m : ℚ) (h : npMin l = .ok m) :
    (∃ k : ℤ, rounded_min_value m = (k : ℚ) * 10)
    ∧ rounded_min_value m ≤ m
    ∧ (∀ x ∈ l, m ≤ x)
    ∧ (m < 10 → rounded_min_value m ≤ 0) := by
  have hlb := npMin_is_lb h
  refine ⟨⟨⌊m / 10⌋, rfl⟩, ?_, hlb, ?_⟩
  · have hf := Int.floor_le (m / 10)
    rw [rounded_min_value]
    exact (le_div_iff₀ (by norm_num : (0:ℚ) < 10)).mp hf
  · intro hlt
    have hdiv : m / 10 < 1 := by
      rw [div_lt_iff₀ (by norm_num : (0:ℚ) < 10)]
      linarith
    have hfl : ⌊m / 10⌋ < 1 := Int.floor_lt.mpr (by exact_mod_cast hdiv)
    have hnp : ⌊m / 10⌋ ≤ 0 := by omega
    rw [rounded_min_value]
    exact mul_nonpos_of_nonpos_of_nonneg (by exact_mod_cast hnp) (by norm_num)

/-- C4 witness: a binding column with single value -25 has minimum -25 and
axis floor -30, satisfying the amended statement. -/
theorem C4_witness :
    npMin [-25] = .ok (-25)
    ∧ ((∃ k : ℤ, rounded_min_value (-25) = (k : ℚ) * 10)
      ∧ rounded_min_value (-25) ≤ -25
      ∧ (∀ x ∈ ([-25] : List ℚ), -25 ≤ x)
      ∧ ((-25 : ℚ) < 10 → rounded_min_value (-25) ≤ 0)) := by
  have heval : npMin [-25] = .ok (-25) := by simp [npMin]
  exact ⟨heval, C4_rounded_min [-25] (-25) heval⟩

/-- Evaluation of the y tick label arange of the HLA ring C: with step v at
most -1 and stop 2v - 1, np.arange yields exactly the three values 0, v, 2v. -/
theorem np_arange_three (v : ℚ) (hv : v ≤ -1) :
    np_arange 0 (2 * v - 1) v = .ok [0, v, 2 * v] := by
  have hvneg : v < 0 := lt_of_le_of_lt hv (by norm_num)
  have hne : v ≠ 0 := ne_of_lt hvneg
  have harg : (2 * v - 1 - 0) / v = 2 - 1 / v := by
    field_simp
  have hc : ⌈(2 * v - 1 - 0) / v⌉ = (3 : ℤ) := by
    rw [harg, Int.ceil_eq_iff]
    have h1 : 1 / v < 0 := one_div_neg.mpr hvneg
    have h2 : -1 ≤ 1 / v := by
      rw [le_div_iff_of_neg hvneg]
      linarith
    constructor <;> push_cast <;> linarith
  rw [np_arange, if_neg hne, hc]
  have hr : List.range (3 : ℤ).toNat = [0, 1, 2] := rfl
  rw [hr]
  have hmap : ([0, 1, 2] : List ℕ).map (fun i => 0 + (i : ℚ) * v)
      = [0, v, 2 * v] := by
    simp
  rw [hmap]

/-- C6 counterexample: at vmin = -20 (a negative multiple of 10) the label
list of the HLA ring C y axis is 0, -10, -20, which corresponds exactly to
the integer renderings of the plotted tick positions 0, vmin/2 and vmin,
refuting the claimed label and position mismatch. -/
theorem C6_counterexample :
    hla_ytick_labels (-20) = .ok ["0", "-10", "-20"]
    ∧ (hla_ytick_positions (-20)).map (fun q => toString (pyInt q))
        = ["0", "-10", "-20"] := by
  have hm10 : pyInt (-10) = (-10 : ℤ) := by
    rw [pyInt, if_neg (by norm_num), Int.ceil_eq_iff]
    constructor <;> norm_num
  have hm20 : pyInt (-20) = (-20 : ℤ) := by
    rw [pyInt, if_neg (by norm_num), Int.ceil_eq_iff]
    constructor <;> norm_num
  have h0 : pyInt 0 = (0 : ℤ) := by
    rw [pyInt, if_pos le_rfl]
    exact Int.floor_zero
  have harr : np_arange 0 ((-20 : ℚ) - 1) ((-20 : ℚ) / 2) = .ok [0, -10, -20] := by
    have e1 : ((-20 : ℚ)) - 1 = 2 * (-10) - 1 := by norm_num
    have e2 : ((-20 : ℚ)) / 2 = -10 := by norm_num
    rw [e1, e2, np_arange_three (-10) (by norm_num)]
    norm_num
  constructor
  · rw [hla_ytick_labels, harr]
    simp only [List.map_cons, List.map_nil, h0, hm10, hm20]
    rfl
  · rw [hla_ytick_positions]
    have e2 : ((-20 : ℚ)) / 2 = -10 := by norm_num
    rw [e2]
    simp only [List.map_cons, List.map_nil, h0, hm10, hm20]
    rfl

/-- C6 amended: for every vmin that is a negative multiple of 10 the tick
positions of the HLA ring C y axis are [0, vmin/2, vmin] and the labels
generated by stepping from 0 toward vmin - 1 in increments of vmin/2 are
exactly the integer renderings of those positions: the label sequence
corresponds to the plotted tick positions. -/
theorem C6_tick_labels (k : ℕ) (hk : 1 ≤ k) :
    hla_ytick_labels (-10 * (k : ℚ))
      = .ok ((hla_ytick_positions (-10 * (k : ℚ))).map
          (fun q => toString (pyInt q))) := by
  have hk1 : (1 : ℚ) ≤ (k : ℚ) := by exact_mod_cast hk
  have hv : (-10 * (k : ℚ)) / 2 ≤ -1 := by
    have h5 : (-10 * (k : ℚ)) / 2 = -5 * (k : ℚ) := by ring
    rw [h5]
    nlinarith
  have hstop : (-10 * (k : ℚ)) - 1 = 2 * ((-10 * (k : ℚ)) / 2) - 1 := by ring
  have harr : np_arange 0 ((-10 * (k : ℚ)) - 1) ((-10 * (k : ℚ)) / 2)
      = .ok [0, (-10 * (k : ℚ)) / 2, 2 * ((-10 * (k : ℚ)) / 2)] := by
    rw [hstop]
    exact np_arange_three _ hv
  rw [hla_ytick_labels, harr, hla_ytick_positions]
  have h2v : 2 * ((-10 * (k : ℚ)) / 2) = -10 * (k : ℚ) := by ring
  rw [h2v]

/-- C6 witness: the amended statement at the concrete value vmin = -20. -/
theorem C6_witness :
    (1 ≤ 2)
    ∧ hla_ytick_labels (-10 * ((2 : ℕ) : ℚ))
        = .ok ((hla_ytick_positions (-10 * ((2 : ℕ) : ℚ))).map
            (fun q => toString (pyInt q))) :=
  ⟨by norm_num, C6_tick_labels 2 (by norm_num)⟩

/-! Closed forms of the color counter sequences. -/

theorem ringA_cursor_list_eq : ∀ (sectors : List (String × Nat)) (c : Int),
    ringA_cursor_list c sectors
      = (List.range sectors.length).map (fun (k : ℕ) => c + (k : Int) + 1)
  | [], _ => rfl
  | _ :: rest, c => by
    rw [ringA_cursor_list, List.length_cons, List.range_succ_eq_map,
      List.map_cons, List.map_map, ringA_cursor_list_eq rest (c + 1)]
    refine congrArg₂ List.cons (by norm_num) ?_
    apply List.map_congr_left
    intro a _
    simp only [Function.comp_apply]
    push_cast
    ring

theorem ringB_cursor_list_eq : ∀ (sectors : List (String × Nat)) (c : Int),
    ringB_cursor_list c sectors
      = (List.range sectors.length).map (fun (k : ℕ) => c + (k : Int) + 1)
  | [], _ => rfl
  | _ :: rest, c => by
    rw [ringB_cursor_list, List.length_cons, List.range_succ_eq_map,
      List.map_cons, List.map_map, ringB_cursor_list_eq rest (c + 1)]
    refine congrArg₂ List.cons (by norm_num) ?_
    apply List.map_congr_left
    intro a _
    simp only [Function.comp_apply]
    push_cast
    ring

/-- C8 confirmed: the ring A and ring B color counters of the driver
renderer, both seeded with bar_pal_start and incremented once per sector
before use, run through the identical index sequence: sector k of either
ring uses color index bar_pal_start + k + 1. -/
theorem C8_cursor_sequences (start : Int) (sectors : List (String × Nat)) :
    ringA_cursor_list start sectors = ringB_cursor_list start sectors
    ∧ ringA_cursor_list start sectors
        = (List.range sectors.length).map (fun (k : ℕ) => start + (k : Int) + 1) := by
  refine ⟨?_, ringA_cursor_list_eq sectors start⟩
  rw [ringA_cursor_list_eq sectors start, ringB_cursor_list_eq sectors start]

/-- C9 counterexample: the three data column name options of the HLA renderer
do carry a default value, the empty string, in the source signature, so they
are not mandatory keyword arguments. -/
theorem C9_counterexample :
    hla_option_defaults.lookup "track_1_data" = some (some (.strDefault ""))
    ∧ hla_option_defaults.lookup "track_2_data" = some (some (.strDefault ""))
    ∧ hla_option_defaults.lookup "track_3_data" = some (some (.strDefault "")) := by
  decide

/-- C9 amended: every option of both renderers has a default value; in
particular the HLA renderer column name options default to the empty string
rather than being mandatory. -/
theorem C9_all_defaults :
    driver_option_defaults.all (fun p => p.2.isSome) = true
    ∧ hla_option_defaults.all (fun p => p.2.isSome) = true := by
  decide

/-! Evaluation lemmas for the ring loops of both renderers. -/

theorem colLookup_some_mem {l : List (String × Col)} {n : String} {c : Col} :
    colLookup l n = some c → (n, c) ∈ l := by
  induction l with
  | nil => intro h; simp [colLookup] at h
  | cons p rest ih =>
    intro h
    rw [colLookup] at h
    by_cases hk : p.1 = n
    · rw [if_pos hk] at h
      subst hk
      injection h with h2
      subst h2
      exact List.mem_cons_self _ _
    · rw [if_neg hk] at h
      exact List.mem_cons_of_mem _ (ih h)

theorem getStrCol_ok_mem {t : Table} {n : String} {vs : List String}
    (h : getStrCol t n = .ok vs) : (n, Col.strCol vs) ∈ t.cols := by
  rw [getStrCol] at h
  cases hg : getCol t n with
  | error e => rw [hg] at h; cases h
  | ok c =>
    cases c with
    | strCol ws =>
      rw [hg] at h
      cases h
      rw [getCol] at hg
      cases hl : colLookup t.cols n with
      | none => rw [hl] at hg; cases hg
      | some c0 =>
        rw [hl] at hg
        cases hg
        exact colLookup_some_mem hl
    | numCol ws => rw [hg] at h; cases h

theorem getNumCol_ok_mem {t : Table} {n : String} {vs : List ℚ}
    (h : getNumCol t n = .ok vs) : (n, Col.numCol vs) ∈ t.cols := by
  rw [getNumCol] at h
  cases hg : getCol t n with
  | error e => rw [hg] at h; cases h
  | ok c =>
    cases c with
    | numCol ws =>
      rw [hg] at h
      cases h
      rw [getCol] at hg
      cases hl : colLookup t.cols n with
      | none => rw [hl] at hg; cases hg
      | some c0 =>
        rw [hl] at hg
        cases hg
        exact colLookup_some_mem hl
    | strCol ws => rw [hg] at h; cases h

theorem name_mem_colNames {t : Table} {n : String} {c : Col}
    (h : (n, c) ∈ t.cols) : n ∈ t.colNames :=
  List.mem_map_of_mem Prod.fst h

theorem getStrCol_keyError {t : Table} {n : String}
    (h : colLookup t.cols n = none) : getStrCol t n = .error (.keyError n) := by
  rw [getStrCol, getCol, h]

theorem wf_size_eq {t : Table} (hwf : t.WF) {n1 n2 : String} {c1 c2 : Col}
    (h1 : (n1, c1) ∈ t.cols) (h2 : (n2, c2) ∈ t.cols) : c1.size = c2.size :=
  hwf (n1, c1) h1 (n2, c2) h2

theorem driver_ringB_loop_ok (t : Table) (cat : List String) (freq : List ℚ)
    (rmax : ℚ) (qs : List String) (hq : getStrCol t "query" = .ok qs)
    (hr : ¬ rmax / 2 = 0) :
    ∀ sectors, driver_ringB_loop t cat freq rmax sectors = .ok ()
  | [] => rfl
  | s :: rest => by
    rw [driver_ringB_loop, driver_ringB_step, hq]
    rw [np_arange, if_neg hr]
    exact driver_ringB_loop_ok t cat freq rmax qs hq hr rest

theorem driver_ringB_loop_err (t : Table) (cat : List String) (freq : List ℚ)
    (rmax : ℚ) (qs : List String) (hq : getStrCol t "query" = .ok qs)
    (hr : rmax / 2 = 0) (s : String × Nat) (rest : List (String × Nat)) :
    driver_ringB_loop t cat freq rmax (s :: rest) = .error .zeroDivisionError := by
  rw [driver_ringB_loop, driver_ringB_step, hq]
  rw [np_arange, if_pos hr]

theorem filterByCat_length {α : Type} (name : String) :
    ∀ (cat : List String) (vals : List α), cat.length = vals.length →
      (filterByCat cat vals name).length = cat.count name
  | [], _, _ => by simp [filterByCat]
  | c :: cs, [], h => by simp at h
  | c :: cs, v :: vs, h => by
    have hlen : cs.length = vs.length := by simpa using h
    have ih := filterByCat_length name cs vs hlen
    by_cases hc : (c == name) = true
    · simp only [filterByCat, List.zip_cons_cons, List.filter_cons,
        List.count_cons, hc, if_true, List.map_cons, List.length_cons] at ih ⊢
      rw [← ih]
    · simp only [filterByCat, List.zip_cons_cons, List.filter_cons,
        List.count_cons, hc, if_false, List.map_cons] at ih ⊢
      rw [← ih]
      rfl

theorem hla_rect_loop_ok (lens : List ℚ) :
    ∀ (idxs : List Nat), (∀ i ∈ idxs, i < lens.length) →
      hla_rect_loop lens idxs = .ok ()
  | [], _ => rfl
  | i :: rest, h => by
    have hi : i < lens.length := h i (List.mem_cons_self i rest)
    have hpy : pyGet lens (i : Int) = some (lens.get ⟨i, hi⟩) := by
      rw [pyGet, if_pos (Int.natCast_nonneg i), Int.toNat_natCast]
      exact List.get?_eq_get hi
    rw [hla_rect_loop, hpy]
    exact hla_rect_loop_ok lens rest (fun j hj => h j (List.mem_cons_of_mem _ hj))

theorem hla_ringB_loop_ok (t : Table) (cat : List String) (o : HlaOptions)
    (lcol : List ℚ) (hl : getNumCol t o.track_2_data = .ok lcol)
    (hlen : cat.length = lcol.length) :
    ∀ sectors, (∀ s ∈ sectors, s.2 = cat.count s.1) →
      hla_ringB_loop t cat o sectors = .ok ()
  | [], _ => rfl
  | s :: rest, h => by
    rw [hla_ringB_loop, hla_ringB_step, hl]
    dsimp only
    have hcount := h s (List.mem_cons_self s rest)
    have hflen : (filterByCat cat lcol s.1).length = cat.count s.1 :=
      filterByCat_length s.1 cat lcol hlen
    have hrect : hla_rect_loop (filterByCat cat lcol s.1) (List.range s.2)
        = .ok () := by
      apply hla_rect_loop_ok
      intro i hi
      rw [hflen, ← hcount]
      exact List.mem_range.mp hi
    rw [hrect]
    exact hla_ringB_loop_ok t cat o lcol hl hlen rest
      (fun p hp => h p (List.mem_cons_of_mem _ hp))

theorem hla_ringC_loop_err (t : Table) (cat : List String) (o : HlaOptions)
    (vmin : ℚ) (ls : List String) (hlab : getStrCol t o.track_3_labels = .ok ls)
    (hr : vmin / 2 = 0) (s : String × Nat) (rest : List (String × Nat)) :
    hla_ringC_loop t cat o vmin (s :: rest) = .error .zeroDivisionError := by
  rw [hla_ringC_loop, hla_ringC_step, hlab]
  rw [np_arange, if_pos hr]

/-- C2: the heatmap color scale selection does not wrap modulo 7.  pal_list
has 7 entries, index 7 taken modulo 7 would select Reds, but the source
indexes the list directly, so the cursor value 7 raises IndexError and the
whole call fails instead of wrapping: with palette start 6 a single sector
table already crashes, and any table with at least 8 distinct categories
crashes under the default start -1. -/
theorem C2_palette_overflow :
    pal_list.length = 7
    ∧ pyGet pal_list ((7 : Int) % 7) = some "Reds"
    ∧ pyGet pal_list 7 = none
    ∧ driver_run c2_table c2_opts = .error .indexError := by
  refine ⟨by decide, by decide, by decide, ?_⟩
  have hcat : getStrCol c2_table c2_opts.track_1_data = .ok ["c1"] := rfl
  have hsec : value_counts ["c1"] = [("c1", 1)] := by decide
  have hfreq : getNumCol c2_table c2_opts.track_2_data = .ok [5] := rfl
  have hmax : npMax [(5 : ℚ)] = .ok 5 := rfl
  have hrmax : rounded_max_value 5 = 10 := by
    rw [rounded_max_value]
    have hce : ⌈((5 : ℚ)) / 10⌉ = 1 := by
      rw [Int.ceil_eq_iff]
      constructor <;> norm_num
    rw [hce]
    norm_num
  have hq : getStrCol c2_table "query" = .ok ["q1"] := rfl
  have hB : driver_ringB_loop c2_table ["c1"] [5] (rounded_max_value 5)
      [("c1", 1)] = .ok () := by
    apply driver_ringB_loop_ok _ _ _ _ _ hq
    rw [hrmax]
    norm_num
  have hd : getNumCol c2_table "driver" = .ok [1] := rfl
  have hC : driver_ringC_loop c2_table ["c1"] c2_opts.hmap_pal_start
      [("c1", 1)] = .error .indexError := by
    have hp : pyGet pal_list (c2_opts.hmap_pal_start + 1) = none := by decide
    rw [driver_ringC_loop, driver_ringC_step, hd, hp]
  have hsteps : driver_steps c2_table c2_opts = .error .indexError := by
    simp only [driver_steps]
    rw [hcat]
    dsimp only
    rw [hsec, hfreq]
    dsimp only
    rw [hmax]
    dsimp only
    rw [hB]
    dsimp only
    rw [hC]
  simp only [driver_run]
  rw [hsteps]

/-! Analysis of the success and failure paths of the two step functions. -/

theorem npMax_ok_ne_nil {l : List ℚ} {m : ℚ} (h : npMax l = .ok m) : l ≠ [] := by
  intro he
  subst he
  simp [npMax] at h

theorem npMin_ok_ne_nil {l : List ℚ} {m : ℚ} (h : npMin l = .ok m) : l ≠ [] := by
  intro he
  subst he
  simp [npMin] at h

theorem driver_steps_keyError (t : Table) (od : DriverOptions)
    (h : colLookup t.cols od.track_1_data = none) :
    driver_steps t od = .error (.keyError od.track_1_data) := by
  simp only [driver_steps, getStrCol_keyError h]

theorem hla_steps_keyError (t : Table) (oh : HlaOptions)
    (h : colLookup t.cols oh.track_1_data = none) :
    hla_steps t oh = .error (.keyError oh.track_1_data) := by
  simp only [hla_steps, getStrCol_keyError h]

theorem driver_run_ok_inv {t : Table} {od : DriverOptions} {ws : List String}
    (h : driver_run t od = .ok ws) :
    ws = [od.file_name] ∧ driver_steps t od = .ok () := by
  simp only [driver_run] at h
  cases hs : driver_steps t od with
  | error e => simp only [hs] at h; exact (Except.noConfusion h)
  | ok u =>
    cases u
    simp only [hs] at h
    injection h with h2
    exact ⟨h2.symm, rfl⟩

theorem hla_run_ok_inv {t : Table} {oh : HlaOptions} {ws : List String}
    (h : hla_run t oh = .ok ws) :
    ws = [oh.file_name] ∧ hla_steps t oh = .ok () := by
  simp only [hla_run] at h
  cases hs : hla_steps t oh with
  | error e => simp only [hs] at h; exact (Except.noConfusion h)
  | ok u =>
    cases u
    simp only [hs] at h
    injection h with h2
    exact ⟨h2.symm, rfl⟩

theorem driver_steps_ok_cols (t : Table) (od : DriverOptions) (hwf : t.WF)
    (h : driver_steps t od = .ok ()) :
    od.track_1_data ∈ t.colNames ∧ od.track_2_data ∈ t.colNames
    ∧ "query" ∈ t.colNames ∧ "driver" ∈ t.colNames := by
  simp only [driver_steps] at h
  cases h1 : getStrCol t od.track_1_data with
  | error e => simp only [h1] at h; exact (Except.noConfusion h)
  | ok cat =>
    simp only [h1] at h
    cases h2 : getNumCol t od.track_2_data with
    | error e => simp only [h2] at h; exact (Except.noConfusion h)
    | ok freq =>
      simp only [h2] at h
      cases h3 : npMax freq with
      | error e => simp only [h3] at h; exact (Except.noConfusion h)
      | ok m =>
        simp only [h3] at h
        have hfne : freq ≠ [] := npMax_ok_ne_nil h3
        have hm1 : (od.track_1_data, Col.strCol cat) ∈ t.cols :=
          getStrCol_ok_mem h1
        have hm2 : (od.track_2_data, Col.numCol freq) ∈ t.cols :=
          getNumCol_ok_mem h2
        have hsz := wf_size_eq hwf hm1 hm2
        simp only [Col.size] at hsz
        have hcat_ne : cat ≠ [] := by
          intro hc
          subst hc
          simp only [List.length_nil] at hsz
          exact hfne (List.length_eq_zero.mp hsz.symm)
        obtain ⟨s, rest, hcons⟩ :=
          List.exists_cons_of_ne_nil (value_counts_ne_nil hcat_ne)
        rw [hcons] at h
        cases h4 : driver_ringB_loop t cat freq (rounded_max_value m)
            (s :: rest) with
        | error e => simp only [h4] at h; exact (Except.noConfusion h)
        | ok u =>
          simp only [h4] at h
          have hq : "query" ∈ t.colNames := by
            rw [driver_ringB_loop] at h4
            cases h5 : driver_ringB_step t cat freq (rounded_max_value m) s with
            | error e => simp only [h5] at h4; exact (Except.noConfusion h4)
            | ok v =>
              simp only [driver_ringB_step] at h5
              cases h6 : getStrCol t "query" with
              | error e => simp only [h6] at h5; exact (Except.noConfusion h5)
              | ok qs => exact name_mem_colNames (getStrCol_ok_mem h6)
          cases h7 : driver_ringC_loop t cat od.hmap_pal_start (s :: rest) with
          | error e => simp only [h7] at h; exact (Except.noConfusion h)
          | ok v =>
            have hd : "driver" ∈ t.colNames := by
              rw [driver_ringC_loop] at h7
              cases h8 : driver_ringC_step t cat (od.hmap_pal_start + 1) s with
              | error e => simp only [h8] at h7; exact (Except.noConfusion h7)
              | ok w =>
                simp only [driver_ringC_step] at h8
                cases h9 : getNumCol t "driver" with
                | error e => simp only [h9] at h8; exact (Except.noConfusion h8)
                | ok ds => exact name_mem_colNames (getNumCol_ok_mem h9)
            exact ⟨name_mem_colNames hm1, name_mem_colNames hm2, hq, hd⟩

theorem hla_steps_ok_cols (t : Table) (oh : HlaOptions) (hwf : t.WF)
    (h : hla_steps t oh = .ok ()) :
    oh.track_1_data ∈ t.colNames ∧ oh.track_2_data ∈ t.colNames
    ∧ oh.track_3_data ∈ t.colNames ∧ oh.track_3_labels ∈ t.colNames := by
  simp only [hla_steps] at h
  cases h1 : getStrCol t oh.track_1_data with
  | error e => simp only [h1] at h; exact (Except.noConfusion h)
  | ok cat =>
    simp only [h1] at h
    cases h2 : hla_ringB_loop t cat oh (value_counts cat) with
    | error e => simp only [h2] at h; exact (Except.noConfusion h)
    | ok u =>
      simp only [h2] at h
      cases h3 : getNumCol t oh.track_3_data with
      | error e => simp only [h3] at h; exact (Except.noConfusion h)
      | ok bcol =>
        simp only [h3] at h
        cases h4 : npMin bcol with
        | error e => simp only [h4] at h; exact (Except.noConfusion h)
        | ok mn =>
          simp only [h4] at h
          have hbne : bcol ≠ [] := npMin_ok_ne_nil h4
          have hm1 : (oh.track_1_data, Col.strCol cat) ∈ t.cols :=
            getStrCol_ok_mem h1
          have hm3 : (oh.track_3_data, Col.numCol bcol) ∈ t.cols :=
            getNumCol_ok_mem h3
          have hsz := wf_size_eq hwf hm1 hm3
          simp only [Col.size] at hsz
          have hcat_ne : cat ≠ [] := by
            intro hc
            subst hc
            simp only [List.length_nil] at hsz
            exact hbne (List.length_eq_zero.mp hsz.symm)
          obtain ⟨s, rest, hcons⟩ :=
            List.exists_cons_of_ne_nil (value_counts_ne_nil hcat_ne)
          rw [hcons] at h2
          have ht2 : oh.track_2_data ∈ t.colNames := by
            rw [hla_ringB_loop] at h2
            cases h5 : hla_ringB_step t cat oh s with
            | error e => simp only [h5] at h2; exact (Except.noConfusion h2)
            | ok v =>
              simp only [hla_ringB_step] at h5
              cases h6 : getNumCol t oh.track_2_data with
              | error e => simp only [h6] at h5; exact (Except.noConfusion h5)
              | ok lcol => exact name_mem_colNames (getNumCol_ok_mem h6)
          rw [hcons] at h
          cases h7 : hla_ringC_loop t cat oh (rounded_min_value mn)
              (s :: rest) with
          | error e => simp only [h7] at h; exact (Except.noConfusion h)
          | ok v =>
            have ht3l : oh.track_3_labels ∈ t.colNames := by
              rw [hla_ringC_loop] at h7
              cases h8 : hla_ringC_step t cat oh (rounded_min_value mn) s with
              | error e => simp only [h8] at h7; exact (Except.noConfusion h7)
              | ok w =>
                simp only [hla_ringC_step] at h8
                cases h9 : getStrCol t oh.track_3_labels with
                | error e => simp only [h9] at h8; exact (Except.noConfusion h8)
                | ok ls => exact name_mem_colNames (getStrCol_ok_mem h9)
            exact ⟨name_mem_colNames hm1, ht2, name_mem_colNames hm3, ht3l⟩

/-- C7 counterexample: on a table without the required driver column the
driver renderer fails with ZeroDivisionError, an error that carries no
column name, and writes nothing; the claim that a missing required column
always surfaces the offending column name is refuted. -/
theorem C7_counterexample :
    c7_table.colNames = ["Cancer_type", "Tumors", "query"]
    ∧ driver_run c7_table {} = .error .zeroDivisionError
    ∧ driver_writes c7_table {} = [] := by
  have hcat : getStrCol c7_table (({} : DriverOptions)).track_1_data
      = .ok ["a"] := rfl
  have hsec : value_counts ["a"] = [("a", 1)] := by decide
  have hfreq : getNumCol c7_table (({} : DriverOptions)).track_2_data
      = .ok [-5] := rfl
  have hmax : npMax [(-5 : ℚ)] = .ok (-5) := rfl
  have hq : getStrCol c7_table "query" = .ok ["q"] := rfl
  have hz : rounded_max_value (-5) / 2 = 0 := by
    rw [rounded_max_value]
    have hce : ⌈((-5 : ℚ)) / 10⌉ = 0 := by
      rw [Int.ceil_eq_iff]
      constructor <;> norm_num
    rw [hce]
    norm_num
  have hB : driver_ringB_loop c7_table ["a"] [-5] (rounded_max_value (-5))
      [("a", 1)] = .error .zeroDivisionError :=
    driver_ringB_loop_err c7_table ["a"] [-5] (rounded_max_value (-5))
      ["q"] hq hz ("a", 1) []
  have hsteps : driver_steps c7_table {} = .error .zeroDivisionError := by
    simp only [driver_steps]
    rw [hcat]
    dsimp only
    rw [hsec, hfreq]
    dsimp only
    rw [hmax]
    dsimp only
    rw [hB]
  refine ⟨rfl, ?_, ?_⟩
  · simp only [driver_run]
    rw [hsteps]
  · simp only [driver_writes]
    rw [hsteps]

/-- C7 amended: a missing category column always fails with a KeyError that
names it; a successful call of either renderer writes exactly the one file
of the fileName option; on a rectangular table a call can only succeed when
every required column is present (so a missing required column makes the
call fail, though a failure earlier in the walk, such as the zero step tick
error of the counterexample, may surface instead of the KeyError of a
loop-accessed column); and every call writes either the single output file
or nothing. -/
theorem C7_column_errors (t : Table) (od : DriverOptions) (oh : HlaOptions) :
    (colLookup t.cols od.track_1_data = none →
        driver_run t od = .error (.keyError od.track_1_data))
    ∧ (∀ ws, driver_run t od = .ok ws → ws = [od.file_name])
    ∧ (t.WF → ∀ ws, driver_run t od = .ok ws →
        od.track_1_data ∈ t.colNames ∧ od.track_2_data ∈ t.colNames
        ∧ "query" ∈ t.colNames ∧ "driver" ∈ t.colNames)
    ∧ (∀ e, driver_run t od = .error e → driver_writes t od = [])
    ∧ (driver_writes t od = [od.file_name] ∨ driver_writes t od = [])
    ∧ (colLookup t.cols oh.track_1_data = none →
        hla_run t oh = .error (.keyError oh.track_1_data))
    ∧ (∀ ws, hla_run t oh = .ok ws → ws = [oh.file_name])
    ∧ (t.WF → ∀ ws, hla_run t oh = .ok ws →
        oh.track_1_data ∈ t.colNames ∧ oh.track_2_data ∈ t.colNames
        ∧ oh.track_3_data ∈ t.colNames ∧ oh.track_3_labels ∈ t.colNames)
    ∧ (∀ e, hla_run t oh = .error e → hla_writes t oh = [])
    ∧ (hla_writes t oh = [oh.file_name] ∨ hla_writes t oh = []) := by
  refine ⟨?_, ?_, ?_, ?_, ?_, ?_, ?_, ?_, ?_, ?_⟩
  · intro h
    simp only [driver_run, driver_steps_keyError t od h]
  · intro ws h
    exact (driver_run_ok_inv h).1
  · intro hwf ws h
    exact driver_steps_ok_cols t od hwf (driver_run_ok_inv h).2
  · intro e h
    simp only [driver_run] at h
    cases hs : driver_steps t od with
    | error e2 => simp only [driver_writes, hs]
    | ok u => simp only [hs] at h; exact (Except.noConfusion h)
  · cases hs : driver_steps t od with
    | error e => right; simp only [driver_writes, hs]
    | ok u => left; simp only [driver_writes, hs]
  · intro h
    simp only [hla_run, hla_steps_keyError t oh h]
  · intro ws h
    exact (hla_run_ok_inv h).1
  · intro hwf ws h
    exact hla_steps_ok_cols t oh hwf (hla_run_ok_inv h).2
  · intro e h
    simp only [hla_run] at h
    cases hs : hla_steps t oh with
    | error e2 => simp only [hla_writes, hs]
    | ok u => simp only [hs] at h; exact (Except.noConfusion h)
  · cases hs : hla_steps t oh with
    | error e => right; simp only [hla_writes, hs]
    | ok u => left; simp only [hla_writes, hs]

/-- C10: in both renderers, whenever the y axis bound computed from the data
rounds to exactly 0 — frequency maximum in (-10, 0] for the driver renderer,
binding minimum in [0, 10) for the HLA renderer — the y tick label
generation calls np.arange with step bound / 2 = 0 and the call fails with
the zero step division error before any file is written. -/
theorem C10_zero_step_failure
    (td : Table) (od : DriverOptions) (cat : List String) (freq : List ℚ)
    (m : ℚ) (qs : List String)
    (h1 : getStrCol td od.track_1_data = .ok cat)
    (h2 : cat ≠ [])
    (h3 : getNumCol td od.track_2_data = .ok freq)
    (h4 : npMax freq = .ok m)
    (h5 : -10 < m) (h6 : m ≤ 0)
    (h7 : getStrCol td "query" = .ok qs)
    (th : Table) (oh : HlaOptions) (cath : List String) (lens binds : List ℚ)
    (mn : ℚ) (ls : List String)
    (g0 : th.WF)
    (g1 : getStrCol th oh.track_1_data = .ok cath)
    (g2 : cath ≠ [])
    (g3 : getNumCol th oh.track_2_data = .ok lens)
    (g4 : getNumCol th oh.track_3_data = .ok binds)
    (g5 : npMin binds = .ok mn)
    (g6 : 0 ≤ mn) (g7 : mn < 10)
    (g8 : getStrCol th oh.track_3_labels = .ok ls) :
    driver_run td od = .error .zeroDivisionError
    ∧ driver_writes td od = []
    ∧ hla_run th oh = .error .zeroDivisionError
    ∧ hla_writes th oh = [] := by
  have hz : rounded_max_value m / 2 = 0 := by
    have hce : ⌈m / 10⌉ = 0 := by
      rw [Int.ceil_eq_iff]
      constructor
      · have hlt : (-1 : ℚ) < m / 10 := by
          rw [lt_div_iff₀ (by norm_num : (0:ℚ) < 10)]
          linarith
        simpa using hlt
      · have hle : m / 10 ≤ 0 :=
          (div_le_iff₀ (by norm_num : (0:ℚ) < 10)).mpr (by linarith)
        simpa using hle
    rw [rounded_max_value, hce]
    norm_num
  obtain ⟨s, rest, hcons⟩ := List.exists_cons_of_ne_nil (value_counts_ne_nil h2)
  have hB := driver_ringB_loop_err td cat freq (rounded_max_value m) qs h7 hz
    s rest
  have hsteps : driver_steps td od = .error .zeroDivisionError := by
    simp only [driver_steps]
    rw [h1]
    dsimp only
    rw [h3]
    dsimp only
    rw [h4]
    dsimp only
    rw [hcons, hB]
  have hlen : cath.length = lens.length := by
    have hsz := wf_size_eq g0 (getStrCol_ok_mem g1) (getNumCol_ok_mem g3)
    simpa [Col.size] using hsz
  have hcount : ∀ p ∈ value_counts cath, p.2 = cath.count p.1 :=
    fun p hp => (mem_firstSeenCounts.mp (mem_value_counts.mp hp)).2
  have hBh := hla_ringB_loop_ok th cath oh lens g3 hlen (value_counts cath)
    hcount
  have hvz : rounded_min_value mn / 2 = 0 := by
    have hfl : ⌊mn / 10⌋ = 0 := by
      rw [Int.floor_eq_iff]
      constructor
      · simpa using div_nonneg g6 (by norm_num : (0:ℚ) ≤ 10)
      · have hlt : mn / 10 < 1 := by
          rw [div_lt_iff₀ (by norm_num : (0:ℚ) < 10)]
          linarith
        simpa using hlt
    rw [rounded_min_value, hfl]
    norm_num
  obtain ⟨sh, resth, hconsh⟩ :=
    List.exists_cons_of_ne_nil (value_counts_ne_nil g2)
  have hCh := hla_ringC_loop_err th cath oh (rounded_min_value mn) ls g8 hvz
    sh resth
  have hstepsh : hla_steps th oh = .error .zeroDivisionError := by
    simp only [hla_steps]
    rw [g1]
    dsimp only
    rw [hBh]
    dsimp only
    rw [g4]
    dsimp only
    rw [g5]
    dsimp only
    rw [hconsh, hCh]
  refine ⟨?_, ?_, ?_, ?_⟩
  · simp only [driver_run]
    rw [hsteps]
  · simp only [driver_writes]
    rw [hsteps]
  · simp only [hla_run]
    rw [hstepsh]
  · simp only [hla_writes]
    rw [hstepsh]

/-- C10 witness: both renderers fail with the zero step error on the
concrete tables whose axis bound rounds to 0, and neither writes a file. -/
theorem C10_witness :
    driver_run c10_driver_table {} = .error .zeroDivisionError
    ∧ driver_writes c10_driver_table {} = []
    ∧ hla_run c10_hla_table c10_hla_opts = .error .zeroDivisionError
    ∧ hla_writes c10_hla_table c10_hla_opts = [] :=
  C10_zero_step_failure c10_driver_table {} ["a"] [-5] (-5) ["q"]
    rfl (by simp) rfl rfl (by norm_num) (by norm_num) rfl
    c10_hla_table c10_hla_opts ["h"] [9] [5] 5 ["p"]
    (by decide) rfl (by simp) rfl rfl rfl (by norm_num) (by norm_num) rfl

end PlotCircos
